import Mathlib

/-!
Verification of the JSON diff / preparation core of `validate/json_diff.py`.

The Python values flowing through `diff_json` and `prepare_diff_input` are
modelled by the inductive type `JVal`: integers, floats (`PyFloat`: NaN or
an exact rational payload; infinities and signed zero are not
distinguished), strings, `None`, lists, dicts and sets.  Python dict keys and set elements must be hashable;
in this program they are always scalars or `None`, modelled by `SKey`.
Dicts are association lists in insertion order (Python dicts preserve
insertion order and never hold duplicate keys); sets are lists of unique
elements whose iteration order is modelled as first-insertion order.
Fallible Python code (assert / raise / TypeError / KeyError) is modelled
with `Except PyError`.
-/

set_option autoImplicit false

namespace JsonDiff

/-- Python exceptions that the modelled code can raise. -/
inductive PyError where
  | notImplementedError : PyError
  | assertionError : PyError
  | typeError : PyError
  | keyError : PyError
deriving DecidableEq

/-- A Python float value: NaN, or a numeric payload modelled as an exact
rational.  NaN is kept in the model because Python `==` — which `diff_json`
uses on scalars — is irreflexive on it. -/
inductive PyFloat where
  | nan : PyFloat
  | val : ℚ → PyFloat
deriving DecidableEq

/-- Python `==` on floats: `nan` compares unequal to everything, itself
included; numeric payloads compare by value.  (Structural `PyFloat`
equality, used below for dict-key and set-element matching, models the
identity shortcut Python containment applies before `==`.) -/
def PyFloat.pyEq : PyFloat → PyFloat → Bool
  | .val a, .val b => decide (a = b)
  | _, _ => false

theorem PyFloat.pyEq_comm (a b : PyFloat) : a.pyEq b = b.pyEq a := by
  cases a <;> cases b <;> simp only [PyFloat.pyEq]
  exact decide_eq_decide.mpr ⟨Eq.symm, Eq.symm⟩

/-- A hashable scalar: a Python dict key or set element as used by this
program (int, float, str, or `None`). -/
inductive SKey where
  | kInt : Int → SKey
  | kFloat : PyFloat → SKey
  | kStr : String → SKey
  | kNone : SKey
deriving DecidableEq

/-- The values `diff_json` / `prepare_diff_input` operate on. -/
inductive JVal where
  | vInt : Int → JVal
  | vFloat : PyFloat → JVal
  | vStr : String → JVal
  | vNone : JVal
  | vList : List JVal → JVal
  | vDict : List (SKey × JVal) → JVal
  | vSet : List SKey → JVal

/-- The Python runtime type tag, as compared by `type(source) != type(destination)`. -/
inductive PyType where
  | tInt | tFloat | tStr | tNoneType | tList | tDict | tSet
deriving DecidableEq

def JVal.pyType : JVal → PyType
  | .vInt _ => .tInt
  | .vFloat _ => .tFloat
  | .vStr _ => .tStr
  | .vNone => .tNoneType
  | .vList _ => .tList
  | .vDict _ => .tDict
  | .vSet _ => .tSet

/-- Embed a hashable scalar back into `JVal` (a set element used as a value). -/
def SKey.toVal : SKey → JVal
  | .kInt n => .vInt n
  | .kFloat q => .vFloat q
  | .kStr s => .vStr s
  | .kNone => .vNone

/-- Python `hash(v)` succeeds exactly on scalars and `None` here; lists,
dicts and sets are unhashable. -/
def toKey : JVal → Option SKey
  | .vInt n => some (.kInt n)
  | .vFloat q => some (.kFloat q)
  | .vStr s => some (.kStr s)
  | .vNone => some .kNone
  | .vList _ => none
  | .vDict _ => none
  | .vSet _ => none

/-- Using a value as a dict key: raises `TypeError` when unhashable. -/
def toKeyE (v : JVal) : Except PyError SKey :=
  match toKey v with
  | some k => .ok k
  | none => .error .typeError

/-- First-match association-list lookup: Python `d[k]` / `d.get(k)`. -/
def lookupBy {α : Type} : List (SKey × α) → SKey → Option α
  | [], _ => none
  | (k, v) :: rest, key => if k = key then some v else lookupBy rest key

/-- List membership test on keys: Python `k in s` for a set / key view. -/
def containsSK : List SKey → SKey → Bool
  | [], _ => false
  | k :: rest, key => if k = key then true else containsSK rest key

/-- The keys of a dict, in insertion order. -/
def dictKeys (es : List (SKey × JVal)) : List SKey := es.map Prod.fst

/-- Union of two key lists, first list first (models `set(a).union(set(b))`;
Python dict key sets never contain duplicates). -/
def unionKeys (a b : List SKey) : List SKey :=
  a ++ b.filter (fun k => !containsSK a k)

/-- The side that lacks a key in a `Miss` node. -/
inductive Side where
  | SOURCE | DESTINATION
deriving DecidableEq

/-- The diff-result tree: `TypeDiff`, `ValueDiff`, `Miss` and `DictDiff`
nodes of the Python class hierarchy.  `DictDiff.children` is kept in
insertion order. -/
inductive DiffRes where
  | typeDiff : JVal → JVal → DiffRes
  | valueDiff : JVal → JVal → DiffRes
  | miss : Side → JVal → DiffRes
  | dictDiff : List (SKey × DiffRes) → DiffRes

/-- Embedding of `DictDiff.add_child`: asserts the key is not already a child, then
stores the child. -/
def add_child (children : List (SKey × DiffRes)) (key : SKey) (diff : DiffRes) :
    Except PyError (List (SKey × DiffRes)) :=
  if (lookupBy children key).isSome then .error .assertionError
  else .ok (children ++ [(key, diff)])

theorem lookupBy_sizeOf {es : List (SKey × JVal)} {k : SKey} {v : JVal}
    (h : lookupBy es k = some v) : sizeOf v < sizeOf es := by
  induction es with
  | nil => simp [lookupBy] at h
  | cons hd tl ih =>
    obtain ⟨k', v'⟩ := hd
    simp only [lookupBy] at h
    split at h
    · cases h
      simp only [List.cons.sizeOf_spec, Prod.mk.sizeOf_spec]
      omega
    · have := ih h
      simp only [List.cons.sizeOf_spec, Prod.mk.sizeOf_spec]
      omega

/-- The set-comparison loop of `diff_json` (lines 115-121): for each element
of the union, elements missing from one side become `Miss` children. -/
def diffSetChildren (xs ys : List SKey) :
    List SKey → List (SKey × DiffRes) → Except PyError (List (SKey × DiffRes))
  | [], acc => .ok acc
  | k :: rest, acc =>
    if !containsSK xs k then do
      let acc2 ← add_child acc k (.miss .SOURCE k.toVal)
      diffSetChildren xs ys rest acc2
    else if !containsSK ys k then do
      let acc2 ← add_child acc k (.miss .DESTINATION k.toVal)
      diffSetChildren xs ys rest acc2
    else
      diffSetChildren xs ys rest acc

mutual

/-- Embedding of `diff_json` (lines 87-127): compare runtime types first,
then scalars by value, dicts by the union of their key sets (recursively),
sets by the union of their elements; other types raise
`NotImplementedError`. -/
def diff_json (source destination : JVal) : Except PyError (Option DiffRes) :=
  if source.pyType ≠ destination.pyType then
    .ok (some (.typeDiff source destination))
  else
    match source, destination with
    | .vInt a, .vInt b =>
      if a ≠ b then .ok (some (.valueDiff (.vInt a) (.vInt b))) else .ok none
    | .vFloat a, .vFloat b =>
      if !a.pyEq b then .ok (some (.valueDiff (.vFloat a) (.vFloat b))) else .ok none
    | .vStr a, .vStr b =>
      if a ≠ b then .ok (some (.valueDiff (.vStr a) (.vStr b))) else .ok none
    | .vDict es, .vDict fs => do
      let children ← diffDictChildren es fs (unionKeys (dictKeys es) (dictKeys fs)) []
      if children.isEmpty then pure none else pure (some (.dictDiff children))
    | .vSet xs, .vSet ys => do
      let children ← diffSetChildren xs ys (unionKeys xs ys) []
      if children.isEmpty then pure none else pure (some (.dictDiff children))
    | _, _ => .error .notImplementedError
termination_by (sizeOf source + sizeOf destination, 0)
decreasing_by
  all_goals exact Prod.Lex.left _ _ (by simp only [JVal.vDict.sizeOf_spec]; omega)

/-- The dict-comparison loop of `diff_json` (lines 102-112): for each key of
the union, keys on one side only become `Miss` children, keys on both sides
are diffed recursively and recorded only when the recursive diff is non-empty. -/
def diffDictChildren (es fs : List (SKey × JVal)) (keys : List SKey)
    (acc : List (SKey × DiffRes)) : Except PyError (List (SKey × DiffRes)) :=
  match keys with
  | [] => .ok acc
  | k :: rest =>
    match h1 : lookupBy es k, h2 : lookupBy fs k with
    | none, some v => do
      let acc2 ← add_child acc k (.miss .SOURCE v)
      diffDictChildren es fs rest acc2
    | none, none =>
      -- `key not in source` and `destination[key]` raises KeyError;
      -- unreachable for keys drawn from the union.
      .error .keyError
    | some v, none => do
      let acc2 ← add_child acc k (.miss .DESTINATION v)
      diffDictChildren es fs rest acc2
    | some sv, some dv => do
      match ← diff_json sv dv with
      | some child => do
        let acc2 ← add_child acc k child
        diffDictChildren es fs rest acc2
      | none => diffDictChildren es fs rest acc
termination_by (sizeOf es + sizeOf fs, keys.length + 1)
decreasing_by
  all_goals first
    | exact Prod.Lex.right _ (by simp only [List.length_cons]; omega)
    | exact Prod.Lex.left _ _
        (by have := lookupBy_sizeOf h1; have := lookupBy_sizeOf h2; omega)

end

/-! ## Preparation (`DiffConfig`, `prepare_diff_input`) -/

/-- The `_HASH_PRIMARY_KEY` sentinel (line 130). -/
def HASH_PRIMARY_KEY : String := "__HASH__"

/-- The `primary_key` attribute as stored by `DiffConfig.__init__`: either
the hash sentinel string or a list of candidate key values. -/
inductive StoredPK where
  | hash : StoredPK
  | candidates : List SKey → StoredPK
deriving DecidableEq

/-- A duplicate-key diagnostic: models the `logging.info("Duplicates
found:...")` message (line 203), which renders the dropped element and the
element already kept. -/
structure DupLog where
  dropped : JVal
  kept : JVal

/-- The `DiffConfig` object: stored primary key, optional `ignore_keys`
container and optional `children` dict mapping keys to child configs. -/
inductive DiffConfig where
  | mk : StoredPK → Option (List SKey) → Option (List (SKey × DiffConfig)) → DiffConfig

def DiffConfig.primary_key : DiffConfig → StoredPK
  | .mk pk _ _ => pk

def DiffConfig.ignore_keys : DiffConfig → Option (List SKey)
  | .mk _ ik _ => ik

def DiffConfig.children : DiffConfig → Option (List (SKey × DiffConfig))
  | .mk _ _ cs => cs

/-- The `primary_key` argument accepted by `DiffConfig.__init__`: `None`, a
single value, or a list of values. -/
inductive PKArg where
  | pkNone : PKArg
  | pkSingle : SKey → PKArg
  | pkList : List SKey → PKArg

/-- Embedding of `DiffConfig.__init__` (lines 149-156): the string `"__HASH__"` is kept
as-is, a list is kept as-is, and any other value `x` (including `None`) is
wrapped into the one-element list `[x]`. -/
def DiffConfig.make (primary_key : PKArg) (ignored_keys : Option (List SKey))
    (children : Option (List (SKey × DiffConfig))) : DiffConfig :=
  let pk : StoredPK :=
    match primary_key with
    | .pkSingle (.kStr s) =>
      if s = HASH_PRIMARY_KEY then .hash else .candidates [.kStr s]
    | .pkSingle k => .candidates [k]
    | .pkNone => .candidates [.kNone]
    | .pkList ks => .candidates ks
  .mk pk ignored_keys children

/-- Python truthiness of the stored `config.primary_key` as tested by the
assert on line 185: the sentinel string is non-empty hence truthy, a list is
truthy iff non-empty (note `DiffConfig(primary_key=None)` stores `[None]`,
which is truthy). -/
def StoredPK.truthy : StoredPK → Bool
  | .hash => true
  | .candidates ks => !ks.isEmpty

/-- Python rendering of a hashable scalar inside a container (`repr`). The
quote around strings is the ASCII apostrophe. -/
def pyReprKey (k : SKey) : String :=
  match k with
  | .kInt n => toString n
  | .kFloat .nan => "nan"
  | .kFloat (.val q) => toString q
  | .kStr s => String.singleton (Char.ofNat 39) ++ s ++ String.singleton (Char.ofNat 39)
  | .kNone => "None"

mutual

/-- Deterministic model of Python `repr` on the values of this program.
Container iteration is modelled in insertion order; floats are rendered via
their rational payload (NaN as its Python rendering). -/
def pyRepr : JVal → String
  | .vInt n => toString n
  | .vFloat .nan => "nan"
  | .vFloat (.val q) => toString q
  | .vStr s => String.singleton (Char.ofNat 39) ++ s ++ String.singleton (Char.ofNat 39)
  | .vNone => "None"
  | .vList xs => "[" ++ pyReprList xs ++ "]"
  | .vDict es => "\x7b" ++ pyReprEntries es ++ "\x7d"
  | .vSet ks =>
    if ks.isEmpty then "set()"
    else "\x7b" ++ String.intercalate ", " (ks.map pyReprKey) ++ "\x7d"

def pyReprList : List JVal → String
  | [] => ""
  | [x] => pyRepr x
  | x :: rest => pyRepr x ++ ", " ++ pyReprList rest

def pyReprEntries : List (SKey × JVal) → String
  | [] => ""
  | [(k, v)] => pyReprKey k ++ ": " ++ pyRepr v
  | (k, v) :: rest => pyReprKey k ++ ": " ++ pyRepr v ++ ", " ++ pyReprEntries rest

end

/-- Python `str(v)`: the string itself for strings, `repr` otherwise. -/
def pyStr (v : JVal) : String :=
  match v with
  | .vStr s => s
  | _ => pyRepr v

/-- Python substring test `sub in s`. -/
def strContainsSub (s sub : String) : Bool :=
  if sub.isEmpty then true else decide (2 ≤ (s.splitOn sub).length)

/-- The Python `in` operator as applied to a prepared element on line 196:
dict key membership, set membership, or substring test on strings; `in` on
a scalar or `None` raises `TypeError`.  (A prepared element is never a raw
list, so `in` on lists is not modelled.) -/
def pyContains (k : SKey) (v : JVal) : Except PyError Bool :=
  match v with
  | .vDict es => .ok (containsSK (dictKeys es) k)
  | .vSet ks => .ok (containsSK ks k)
  | .vStr s =>
    match k with
    | .kStr sub => .ok (strContainsSub s sub)
    | _ => .error .typeError
  | _ => .error .typeError

/-- Subscription `converted[primary_key]` (line 197): dict lookup; raises
`KeyError` for a missing key and `TypeError` on non-dicts. -/
def pySubscript (v : JVal) (k : SKey) : Except PyError JVal :=
  match v with
  | .vDict es =>
    match lookupBy es k with
    | some x => .ok x
    | none => .error .keyError
  | _ => .error .typeError

/-- The candidate loop of lines 195-198: the first candidate field present
in the prepared element provides the key; when no candidate is present the
key keeps its initial value `None`. -/
def firstCandidate (candidates : List SKey) (converted : JVal) : Except PyError JVal :=
  match candidates with
  | [] => .ok .vNone
  | pk :: rest => do
    let b ← pyContains pk converted
    if b then pySubscript converted pk else firstCandidate rest converted

/-- Key computation for one prepared list element (lines 190-198): the hash
sentinel uses `str(converted)`, otherwise the first present candidate. -/
def computeKey (pk : StoredPK) (converted : JVal) : Except PyError JVal :=
  match pk with
  | .hash => .ok (.vStr (pyStr converted))
  | .candidates ks => firstCandidate ks converted

/-- Model of `set(data)` on a list of scalars (line 183): every element must be
hashable, otherwise `TypeError`. -/
def listToKeys : List JVal → Except PyError (List SKey)
  | [] => .ok []
  | v :: rest => do
    let k ← toKeyE v
    let ks ← listToKeys rest
    .ok (k :: ks)

/-- Deduplicate, keeping first occurrences (Python set contents, iteration
modelled in first-insertion order). -/
def dedupKeys : List SKey → List SKey → List SKey
  | [], acc => acc
  | k :: rest, acc =>
    if containsSK acc k then dedupKeys rest acc else dedupKeys rest (acc ++ [k])

/-- Python dict assignment `result[key] = v`: overwrite in place when the
key exists, append otherwise. -/
def dictInsert (l : List (SKey × JVal)) (k : SKey) (v : JVal) : List (SKey × JVal) :=
  match l with
  | [] => [(k, v)]
  | (k', v') :: rest =>
    if k' = k then (k', v) :: rest else (k', v') :: dictInsert rest k v

/-- The test `config and config.ignore_keys and key in config.ignore_keys` (line
215): a missing config or a falsy (absent or empty) `ignore_keys` ignores
nothing. -/
def ignoredIn (config : Option DiffConfig) (k : SKey) : Bool :=
  match config with
  | none => false
  | some c =>
    match c.ignore_keys with
    | none => false
    | some ks => containsSK ks k

/-- The lookup `config.children.get(key, None)` guarded by truthiness of `config` and
`config.children` (lines 218-220). -/
def childConfigFor (config : Option DiffConfig) (k : SKey) : Option DiffConfig :=
  match config with
  | none => none
  | some c =>
    match c.children with
    | none => none
    | some cs => lookupBy cs k

theorem sizeOf_mem_list {v : JVal} {l : List JVal} (h : v ∈ l) : sizeOf v < sizeOf l := by
  induction l with
  | nil => cases h
  | cons hd tl ih =>
    rw [List.mem_cons] at h
    rcases h with rfl | h
    · simp only [List.cons.sizeOf_spec]; omega
    · have := ih h
      simp only [List.cons.sizeOf_spec]; omega

mutual

/-- Embedding of `prepare_diff_input` (lines 168-227): empty lists and
empty dicts become empty dicts, lists of scalars become sets, lists of
dicts become dicts keyed by the configured primary key (requiring a config
with a truthy `primary_key`), dict entries are prepared recursively under
the child config unless ignored, scalars pass through, and anything else
raises `NotImplementedError`.  The second component collects the
duplicate-key diagnostics emitted along the way, in emission order. -/
def prepare_diff_input (data : JVal) (config : Option DiffConfig) :
    Except PyError (JVal × List DupLog) :=
  match data with
  | .vList [] => .ok (.vDict [], [])
  | .vList (e :: rest) =>
    match e.pyType with
    | .tInt | .tFloat | .tStr => do
      let ks ← listToKeys (e :: rest)
      .ok (.vSet (dedupKeys ks []), [])
    | .tDict =>
      match config with
      | some c =>
        if c.primary_key.truthy then do
          let (result, logs) ← prepare_list_of_dicts (e :: rest) c [] []
          .ok (.vDict result, logs)
        else .error .assertionError
      | none => .error .assertionError
    | _ => .error .notImplementedError
  | .vDict entries =>
    if entries.isEmpty then .ok (.vDict [], [])
    else do
      let (result, logs) ← prepare_dict_entries entries config [] []
      .ok (.vDict result, logs)
  | .vInt n => .ok (.vInt n, [])
  | .vFloat q => .ok (.vFloat q, [])
  | .vStr s => .ok (.vStr s, [])
  | _ => .error .notImplementedError
termination_by sizeOf data
decreasing_by
  all_goals simp only [JVal.vList.sizeOf_spec, JVal.vDict.sizeOf_spec, List.cons.sizeOf_spec]
  all_goals omega

/-- The list-of-dicts loop (lines 187-206): each element is prepared with
the same config, its key computed, and it is stored under that key unless
the key is already present, in which case the element is dropped and a
duplicate diagnostic is emitted. -/
def prepare_list_of_dicts (elems : List JVal) (config : DiffConfig)
    (result : List (SKey × JVal)) (logs : List DupLog) :
    Except PyError (List (SKey × JVal) × List DupLog) :=
  match elems with
  | [] => .ok (result, logs)
  | e :: rest => do
    let (converted, lgs) ← prepare_diff_input e (some config)
    let keyv ← computeKey config.primary_key converted
    let key ← toKeyE keyv
    match lookupBy result key with
    | none => prepare_list_of_dicts rest config (result ++ [(key, converted)]) (logs ++ lgs)
    | some kept =>
      prepare_list_of_dicts rest config result (logs ++ lgs ++ [⟨converted, kept⟩])
termination_by sizeOf elems
decreasing_by
  all_goals simp only [List.cons.sizeOf_spec]
  all_goals omega

/-- The dict loop (lines 213-221): ignored keys are dropped, all other
values are prepared recursively under the child config registered for
their key. -/
def prepare_dict_entries (entries : List (SKey × JVal)) (config : Option DiffConfig)
    (result : List (SKey × JVal)) (logs : List DupLog) :
    Except PyError (List (SKey × JVal) × List DupLog) :=
  match entries with
  | [] => .ok (result, logs)
  | (key, value) :: rest =>
    if ignoredIn config key then prepare_dict_entries rest config result logs
    else do
      let (cv, lgs) ← prepare_diff_input value (childConfigFor config key)
      prepare_dict_entries rest config (dictInsert result key cv) (logs ++ lgs)
termination_by sizeOf entries
decreasing_by
  all_goals simp only [List.cons.sizeOf_spec, Prod.mk.sizeOf_spec]
  all_goals omega

end

/-! ## Canonical values and basic list lemmas -/

mutual

/-- The canonical values of spec §3: scalars, mappings of canonical values
with unique keys, and sets of unique scalars.  `None`, lists and any other
shape are not canonical. -/
def canonicalB : JVal → Bool
  | .vInt _ => true
  | .vFloat _ => true
  | .vStr _ => true
  | .vNone => false
  | .vList _ => false
  | .vDict es => decide (dictKeys es).Nodup && canonicalEntries es
  | .vSet ks => decide ks.Nodup

/-- All values of a dict are canonical. -/
def canonicalEntries : List (SKey × JVal) → Bool
  | [] => true
  | (_, v) :: rest => canonicalB v && canonicalEntries rest

end

mutual

/-- No NaN occurs in a value position — the positions `diff_json` compares
with Python `!=`: the value itself when it is a float scalar, and dict
values, recursively.  Dict keys and set elements are only matched by
containment (where the same NaN finds itself), never compared with `!=`,
so they are unrestricted. -/
def nanValueFree : JVal → Bool
  | .vInt _ => true
  | .vFloat .nan => false
  | .vFloat (.val _) => true
  | .vStr _ => true
  | .vNone => true
  | .vList _ => true
  | .vDict es => nanValueFreeEntries es
  | .vSet _ => true

def nanValueFreeEntries : List (SKey × JVal) → Bool
  | [] => true
  | (_, v) :: rest => nanValueFree v && nanValueFreeEntries rest

end

mutual

/-- Every `DictDiff` node in a diff result has at least one child. -/
def noEmptyDict : DiffRes → Bool
  | .typeDiff _ _ => true
  | .valueDiff _ _ => true
  | .miss _ _ => true
  | .dictDiff cs => !cs.isEmpty && noEmptyDictChildren cs

def noEmptyDictChildren : List (SKey × DiffRes) → Bool
  | [] => true
  | (_, r) :: rest => noEmptyDict r && noEmptyDictChildren rest

end

theorem containsSK_iff {l : List SKey} {k : SKey} : containsSK l k = true ↔ k ∈ l := by
  induction l with
  | nil => simp [containsSK]
  | cons hd tl ih =>
    by_cases h : hd = k
    · subst h
      simp [containsSK]
    · have h' : ¬k = hd := fun he => h he.symm
      simp [containsSK, h, ih, List.mem_cons, h']

theorem lookupBy_eq_none_iff {α : Type} {es : List (SKey × α)} {k : SKey} :
    lookupBy es k = none ↔ k ∉ es.map Prod.fst := by
  induction es with
  | nil => simp [lookupBy]
  | cons hd tl ih =>
    obtain ⟨k', v'⟩ := hd
    by_cases h : k' = k
    · subst h
      simp [lookupBy]
    · have h' : ¬k = k' := fun he => h he.symm
      simp only [lookupBy, if_neg h, List.map_cons, List.mem_cons]
      rw [ih]
      simp [h']

theorem lookupBy_mem {α : Type} {es : List (SKey × α)} {k : SKey} {v : α}
    (h : lookupBy es k = some v) : (k, v) ∈ es := by
  induction es with
  | nil => simp [lookupBy] at h
  | cons hd tl ih =>
    obtain ⟨k', v'⟩ := hd
    simp only [lookupBy] at h
    split at h
    · cases h
      subst_vars
      exact List.mem_cons_self _ _
    · exact List.mem_cons_of_mem _ (ih h)

theorem lookupBy_eq_some_of_mem_keys {α : Type} {es : List (SKey × α)} {k : SKey}
    (h : k ∈ es.map Prod.fst) : ∃ v, lookupBy es k = some v := by
  cases hl : lookupBy es k with
  | some v => exact ⟨v, rfl⟩
  | none => exact absurd h (lookupBy_eq_none_iff.mp hl)

theorem lookupBy_append {α : Type} (a b : List (SKey × α)) (k : SKey) :
    lookupBy (a ++ b) k =
      match lookupBy a k with
      | some v => some v
      | none => lookupBy b k := by
  induction a with
  | nil => simp [lookupBy]
  | cons hd tl ih =>
    obtain ⟨k', v'⟩ := hd
    by_cases h : k' = k <;> simp [lookupBy, h, ih]

theorem mem_unionKeys {a b : List SKey} {k : SKey} :
    k ∈ unionKeys a b ↔ k ∈ a ∨ k ∈ b := by
  constructor
  · intro h
    rcases List.mem_append.mp h with h | h
    · exact Or.inl h
    · exact Or.inr (List.mem_filter.mp h).1
  · intro h
    by_cases ha : k ∈ a
    · exact List.mem_append.mpr (Or.inl ha)
    · rcases h with h | h
      · exact absurd h ha
      · refine List.mem_append.mpr (Or.inr (List.mem_filter.mpr ⟨h, ?_⟩))
        have : containsSK a k = false :=
          Bool.eq_false_iff.mpr (fun hc => ha (containsSK_iff.mp hc))
        simp [this]

theorem unionKeys_nodup {a b : List SKey} (ha : a.Nodup) (hb : b.Nodup) :
    (unionKeys a b).Nodup := by
  refine List.Nodup.append ha (hb.filter _) ?_
  intro k hk hk'
  have := (List.mem_filter.mp hk').2
  rw [Bool.not_eq_eq_eq_not, Bool.not_true] at this
  exact absurd (containsSK_iff.mpr hk) (by simp [this])

theorem unionKeys_self (a : List SKey) : unionKeys a a = a := by
  have : a.filter (fun k => !containsSK a k) = [] := by
    rw [List.filter_eq_nil_iff]
    intro k hk
    simp [containsSK_iff.mpr hk]
  simp [unionKeys, this]

theorem one_le_sizeOf_JVal (v : JVal) : 1 ≤ sizeOf v := by
  cases v <;> simp_arith

theorem canonicalEntries_iff {es : List (SKey × JVal)} :
    canonicalEntries es = true ↔ ∀ p ∈ es, canonicalB p.2 = true := by
  induction es with
  | nil => simp [canonicalEntries]
  | cons hd tl ih =>
    obtain ⟨k, v⟩ := hd
    simp [canonicalEntries, Bool.and_eq_true, ih]

theorem nanValueFreeEntries_iff {es : List (SKey × JVal)} :
    nanValueFreeEntries es = true ↔ ∀ p ∈ es, nanValueFree p.2 = true := by
  induction es with
  | nil => simp [nanValueFreeEntries]
  | cons hd tl ih =>
    obtain ⟨k, v⟩ := hd
    simp [nanValueFreeEntries, Bool.and_eq_true, ih]

theorem canonicalB_dict_iff {es : List (SKey × JVal)} :
    canonicalB (.vDict es) = true ↔
      (es.map Prod.fst).Nodup ∧ ∀ p ∈ es, canonicalB p.2 = true := by
  simp [canonicalB, Bool.and_eq_true, canonicalEntries_iff, dictKeys]

theorem noEmptyDictChildren_iff {cs : List (SKey × DiffRes)} :
    noEmptyDictChildren cs = true ↔ ∀ p ∈ cs, noEmptyDict p.2 = true := by
  induction cs with
  | nil => simp [noEmptyDictChildren]
  | cons hd tl ih =>
    obtain ⟨k, r⟩ := hd
    simp [noEmptyDictChildren, Bool.and_eq_true, ih]

/-! ## The spec-side classification of union keys (spec §4.2 steps 3-4) -/

/-- Modelled from the spec (§4.2 step 3): the classification of one key of
the union of both key sets — a key absent from the source side is a
`Missing(SOURCE, destination[key])` child, a key absent from the
destination side is a `Missing(DESTINATION, source[key])` child, and a key
present on both sides is diffed recursively.  (A key on neither side makes
the code raise `KeyError`; such a key never occurs in the union.) -/
def classifyKey (es fs : List (SKey × JVal)) (k : SKey) : Except PyError (Option DiffRes) :=
  match lookupBy es k, lookupBy fs k with
  | none, none => .error .keyError
  | none, some v => .ok (some (.miss .SOURCE v))
  | some v, none => .ok (some (.miss .DESTINATION v))
  | some sv, some dv => diff_json sv dv

/-- The children collected for a mapping comparison, per the spec: one
child per union key whose classification is a non-empty diff. -/
def classifiedChildren (es fs : List (SKey × JVal)) (keys : List SKey) :
    List (SKey × DiffRes) :=
  keys.filterMap (fun k =>
    match classifyKey es fs k with
    | .ok (some r) => some (k, r)
    | _ => none)

/-- Modelled from the spec (§4.2 step 4): the classification of one set
element — an element absent from one side is a `Missing` child for that
side (the element serving as both key and value), an element on both sides
contributes nothing. -/
def classifySetElem (xs ys : List SKey) (k : SKey) : Option DiffRes :=
  if !containsSK xs k then some (.miss .SOURCE k.toVal)
  else if !containsSK ys k then some (.miss .DESTINATION k.toVal)
  else none

/-- The children collected for a set comparison, per the spec. -/
def classifiedSetChildren (xs ys : List SKey) (keys : List SKey) :
    List (SKey × DiffRes) :=
  keys.filterMap (fun k => (classifySetElem xs ys k).map (fun r => (k, r)))

/-! ## The comparison loops refine the spec-side classifications -/

theorem lookupBy_append_singleton_ne {α : Type} {acc : List (SKey × α)} {k k' : SKey}
    {d : α} (h : lookupBy acc k' = none) (hne : k ≠ k') :
    lookupBy (acc ++ [(k, d)]) k' = none := by
  rw [lookupBy_append, h]
  simp [lookupBy, hne]

theorem diffSetChildren_eq (xs ys : List SKey) :
    ∀ (keys : List SKey) (acc : List (SKey × DiffRes)), keys.Nodup →
    (∀ k ∈ keys, lookupBy acc k = none) →
    diffSetChildren xs ys keys acc = .ok (acc ++ classifiedSetChildren xs ys keys)
  | [], acc, _, _ => by simp [diffSetChildren, classifiedSetChildren]
  | k :: rest, acc, hnd, hacc => by
    rw [List.nodup_cons] at hnd
    have hk : lookupBy acc k = none := hacc k (List.mem_cons_self _ _)
    have hacc' : ∀ d, ∀ k' ∈ rest, lookupBy (acc ++ [(k, d)]) k' = none := by
      intro d k' hk'
      exact lookupBy_append_singleton_ne (hacc k' (List.mem_cons_of_mem _ hk'))
        (fun he => hnd.1 (he ▸ hk'))
    simp only [diffSetChildren, classifiedSetChildren, List.filterMap_cons]
    by_cases hx : containsSK xs k
    · by_cases hy : containsSK ys k
      · simp only [hx, hy, Bool.not_true, Bool.false_eq_true, if_false, if_neg]
        rw [diffSetChildren_eq xs ys rest acc hnd.2
          (fun k' hk' => hacc k' (List.mem_cons_of_mem _ hk'))]
        simp [classifiedSetChildren, classifySetElem, hx, hy]
      · simp only [hx, hy, Bool.not_true, Bool.not_false, if_neg, if_pos,
          Bool.false_eq_true, add_child, hk, Option.isSome_none, Bool.false_eq_true,
          if_false, bind, Except.bind]
        rw [diffSetChildren_eq xs ys rest (acc ++ [(k, .miss .DESTINATION k.toVal)])
          hnd.2 (hacc' _)]
        simp [classifiedSetChildren, classifySetElem, hx, hy]
    · simp only [hx, Bool.not_false, if_pos, add_child, hk, Option.isSome_none,
        Bool.false_eq_true, if_false, bind, Except.bind]
      rw [diffSetChildren_eq xs ys rest (acc ++ [(k, .miss .SOURCE k.toVal)])
        hnd.2 (hacc' _)]
      simp [classifiedSetChildren, classifySetElem, hx]

/-- One step of the dict-comparison loop, phrased through the spec-side
classification of the head key. -/
theorem diffDictChildren_cons (es fs : List (SKey × JVal)) (k : SKey) (rest : List SKey)
    (acc : List (SKey × DiffRes)) :
    diffDictChildren es fs (k :: rest) acc =
      match classifyKey es fs k with
      | .error e => .error e
      | .ok none => diffDictChildren es fs rest acc
      | .ok (some child) => add_child acc k child >>= diffDictChildren es fs rest := by
  rw [diffDictChildren.eq_def]
  simp only [bind, Except.bind]
  split
  · next v h1 h2 => simp [classifyKey, h1, h2, bind, Except.bind]
  · next h1 h2 => simp [classifyKey, h1, h2]
  · next v h1 h2 => simp [classifyKey, h1, h2, bind, Except.bind]
  · next sv dv h1 h2 =>
    simp only [classifyKey, h1, h2]
    cases hd : diff_json sv dv with
    | error e => simp
    | ok c => cases c <;> simp [bind, Except.bind]

theorem diffDictChildren_eq (es fs : List (SKey × JVal)) :
    ∀ (keys : List SKey) (acc : List (SKey × DiffRes)), keys.Nodup →
    (∀ k ∈ keys, lookupBy acc k = none) →
    (∀ k ∈ keys, ∃ r, classifyKey es fs k = .ok r) →
    diffDictChildren es fs keys acc = .ok (acc ++ classifiedChildren es fs keys)
  | [], acc, _, _, _ => by simp [diffDictChildren, classifiedChildren]
  | k :: rest, acc, hnd, hacc, hok => by
    rw [List.nodup_cons] at hnd
    have hk : lookupBy acc k = none := hacc k (List.mem_cons_self _ _)
    have hacc2 : ∀ k' ∈ rest, lookupBy acc k' = none :=
      fun k' hk' => hacc k' (List.mem_cons_of_mem _ hk')
    have hacc' : ∀ d, ∀ k' ∈ rest, lookupBy (acc ++ [(k, d)]) k' = none := by
      intro d k' hk'
      exact lookupBy_append_singleton_ne (hacc2 k' hk') (fun he => hnd.1 (he ▸ hk'))
    have hok2 : ∀ k' ∈ rest, ∃ r, classifyKey es fs k' = .ok r :=
      fun k' hk' => hok k' (List.mem_cons_of_mem _ hk')
    obtain ⟨r, hr⟩ := hok k (List.mem_cons_self _ _)
    simp only [classifiedChildren, List.filterMap_cons]
    rw [diffDictChildren_cons, hr]
    cases r with
    | none =>
      rw [diffDictChildren_eq es fs rest acc hnd.2 hacc2 hok2]
      simp [classifiedChildren, hr]
    | some child =>
      simp only [add_child, hk, Option.isSome_none, Bool.false_eq_true, if_false,
        bind, Except.bind]
      rw [diffDictChildren_eq es fs rest (acc ++ [(k, child)]) hnd.2 (hacc' _) hok2]
      simp [classifiedChildren, hr]

/-! ## Master induction over canonical values -/

theorem canonicalB_set_iff {ks : List SKey} :
    canonicalB (.vSet ks) = true ↔ ks.Nodup := by
  simp [canonicalB]

/-- On canonical inputs, `diff_json` (a) never raises, (b) only surfaces
`DictDiff` nodes with at least one child, and (c) returns "no diff" on
equal inputs. -/
theorem diff_json_master :
    ∀ (n : Nat) (s d : JVal), sizeOf s + sizeOf d ≤ n →
      canonicalB s = true → canonicalB d = true →
      ∃ r, diff_json s d = .ok r ∧
        (∀ x, r = some x → noEmptyDict x = true) ∧
        (s = d → nanValueFree s = true → r = none) := by
  intro n
  induction n with
  | zero =>
    intro s d hsz _ _
    have := one_le_sizeOf_JVal s
    have := one_le_sizeOf_JVal d
    omega
  | succ n ih =>
    intro s d hsz hcs hcd
    by_cases hty : s.pyType = d.pyType
    · cases s with
      | vNone => simp [canonicalB] at hcs
      | vList l => simp [canonicalB] at hcs
      | vInt a =>
        cases d with
        | vInt b =>
          by_cases hab : a = b
          · subst hab
            refine ⟨none, ?_, by simp, fun _ _ => rfl⟩
            rw [diff_json.eq_def]
            simp [JVal.pyType]
          · refine ⟨some (.valueDiff (.vInt a) (.vInt b)), ?_, ?_, ?_⟩
            · rw [diff_json.eq_def]
              simp [JVal.pyType, hab]
            · intro x hx
              cases hx
              simp [noEmptyDict]
            · intro he _
              exact absurd (by injection he) hab
        | vFloat q => exact absurd hty (by simp [JVal.pyType])
        | vStr _ => exact absurd hty (by simp [JVal.pyType])
        | vNone => exact absurd hty (by simp [JVal.pyType])
        | vList _ => exact absurd hty (by simp [JVal.pyType])
        | vDict _ => exact absurd hty (by simp [JVal.pyType])
        | vSet _ => exact absurd hty (by simp [JVal.pyType])
      | vFloat a =>
        cases d with
        | vFloat b =>
          by_cases hab : a.pyEq b = true
          · refine ⟨none, ?_, by simp, fun _ _ => rfl⟩
            rw [diff_json.eq_def]
            simp [JVal.pyType, hab]
          · have hab' : a.pyEq b = false := Bool.eq_false_iff.mpr hab
            refine ⟨some (.valueDiff (.vFloat a) (.vFloat b)), ?_, ?_, ?_⟩
            · rw [diff_json.eq_def]
              simp [JVal.pyType, hab']
            · intro x hx
              cases hx
              simp [noEmptyDict]
            · intro he hn
              have hba : a = b := by injection he
              subst hba
              cases a with
              | nan => simp [nanValueFree] at hn
              | val q => simp [PyFloat.pyEq] at hab
        | vInt _ => exact absurd hty (by simp [JVal.pyType])
        | vStr _ => exact absurd hty (by simp [JVal.pyType])
        | vNone => exact absurd hty (by simp [JVal.pyType])
        | vList _ => exact absurd hty (by simp [JVal.pyType])
        | vDict _ => exact absurd hty (by simp [JVal.pyType])
        | vSet _ => exact absurd hty (by simp [JVal.pyType])
      | vStr a =>
        cases d with
        | vStr b =>
          by_cases hab : a = b
          · subst hab
            refine ⟨none, ?_, by simp, fun _ _ => rfl⟩
            rw [diff_json.eq_def]
            simp [JVal.pyType]
          · refine ⟨some (.valueDiff (.vStr a) (.vStr b)), ?_, ?_, ?_⟩
            · rw [diff_json.eq_def]
              simp [JVal.pyType, hab]
            · intro x hx
              cases hx
              simp [noEmptyDict]
            · intro he _
              exact absurd (by injection he) hab
        | vInt _ => exact absurd hty (by simp [JVal.pyType])
        | vFloat _ => exact absurd hty (by simp [JVal.pyType])
        | vNone => exact absurd hty (by simp [JVal.pyType])
        | vList _ => exact absurd hty (by simp [JVal.pyType])
        | vDict _ => exact absurd hty (by simp [JVal.pyType])
        | vSet _ => exact absurd hty (by simp [JVal.pyType])
      | vDict es =>
        cases d with
        | vDict fs =>
          obtain ⟨hnes, hces⟩ := canonicalB_dict_iff.mp hcs
          obtain ⟨hnfs, hcfs⟩ := canonicalB_dict_iff.mp hcd
          have hszes : sizeOf (JVal.vDict es) = 1 + sizeOf es := by simp
          have hszfs : sizeOf (JVal.vDict fs) = 1 + sizeOf fs := by simp
          have hok : ∀ k ∈ unionKeys (dictKeys es) (dictKeys fs),
              ∃ r, classifyKey es fs k = .ok r := by
            intro k hku
            cases hle : lookupBy es k with
            | none =>
              cases hlf : lookupBy fs k with
              | none =>
                rcases mem_unionKeys.mp hku with hke | hkf
                · exact absurd hke (lookupBy_eq_none_iff.mp hle)
                · exact absurd hkf (lookupBy_eq_none_iff.mp hlf)
              | some v => exact ⟨some (.miss .SOURCE v), by simp [classifyKey, hle, hlf]⟩
            | some sv =>
              cases hlf : lookupBy fs k with
              | none => exact ⟨some (.miss .DESTINATION sv), by simp [classifyKey, hle, hlf]⟩
              | some dv =>
                have hsv := lookupBy_sizeOf hle
                have hdv := lookupBy_sizeOf hlf
                have hcsv := hces _ (lookupBy_mem hle)
                have hcdv := hcfs _ (lookupBy_mem hlf)
                obtain ⟨r, hr, -, -⟩ := ih sv dv (by omega) hcsv hcdv
                exact ⟨r, by simp [classifyKey, hle, hlf, hr]⟩
          have hnd : (unionKeys (dictKeys es) (dictKeys fs)).Nodup :=
            unionKeys_nodup hnes hnfs
          have hloop := diffDictChildren_eq es fs (unionKeys (dictKeys es) (dictKeys fs)) []
            hnd (by simp [lookupBy]) hok
          have heval : diff_json (.vDict es) (.vDict fs) =
              .ok (if (classifiedChildren es fs
                    (unionKeys (dictKeys es) (dictKeys fs))).isEmpty then none
                  else some (.dictDiff (classifiedChildren es fs
                    (unionKeys (dictKeys es) (dictKeys fs))))) := by
            rw [diff_json.eq_def]
            simp only [JVal.pyType, ne_eq, not_true_eq_false, if_false, hloop,
              List.nil_append, bind, Except.bind]
            split <;> simp_all [pure, Except.pure]
          have hchildren : ∀ p ∈ classifiedChildren es fs
              (unionKeys (dictKeys es) (dictKeys fs)), noEmptyDict p.2 = true := by
            intro p hp
            obtain ⟨k, hku, hfk⟩ := List.mem_filterMap.mp hp
            cases hc : classifyKey es fs k with
            | error e => rw [hc] at hfk; cases hfk
            | ok ro =>
              cases ro with
              | none => rw [hc] at hfk; cases hfk
              | some r =>
                rw [hc] at hfk
                cases hfk
                cases hle : lookupBy es k with
                | none =>
                  cases hlf : lookupBy fs k with
                  | none => simp [classifyKey, hle, hlf] at hc
                  | some v =>
                    simp only [classifyKey, hle, hlf, Except.ok.injEq,
                      Option.some.injEq] at hc
                    cases hc
                    simp [noEmptyDict]
                | some sv =>
                  cases hlf : lookupBy fs k with
                  | none =>
                    simp only [classifyKey, hle, hlf, Except.ok.injEq,
                      Option.some.injEq] at hc
                    cases hc
                    simp [noEmptyDict]
                  | some dv =>
                    simp only [classifyKey, hle, hlf] at hc
                    have hsv := lookupBy_sizeOf hle
                    have hdv := lookupBy_sizeOf hlf
                    have hcsv := hces _ (lookupBy_mem hle)
                    have hcdv := hcfs _ (lookupBy_mem hlf)
                    obtain ⟨r', hr', hne, -⟩ := ih sv dv (by omega) hcsv hcdv
                    rw [hr'] at hc
                    cases hc
                    exact hne r rfl
          have hrefl : JVal.vDict es = JVal.vDict fs →
              nanValueFree (JVal.vDict es) = true →
              classifiedChildren es fs (unionKeys (dictKeys es) (dictKeys fs)) = [] := by
            intro he hn
            have hesfs : es = fs := by injection he
            subst hesfs
            have hnes' : ∀ p ∈ es, nanValueFree p.2 = true :=
              nanValueFreeEntries_iff.mp (by simpa [nanValueFree] using hn)
            rw [unionKeys_self]
            simp only [classifiedChildren]
            rw [List.filterMap_eq_nil_iff]
            intro k hk
            obtain ⟨v, hv⟩ := lookupBy_eq_some_of_mem_keys hk
            have hsv := lookupBy_sizeOf hv
            have hcv := hces _ (lookupBy_mem hv)
            obtain ⟨r', hr', -, hnone⟩ := ih v v (by omega) hcv hcv
            have : r' = none := hnone rfl (hnes' _ (lookupBy_mem hv))
            subst this
            simp [classifyKey, hv, hr']
          by_cases hemp : (classifiedChildren es fs
              (unionKeys (dictKeys es) (dictKeys fs))).isEmpty
          · refine ⟨none, ?_, by simp, fun _ _ => rfl⟩
            rw [heval, if_pos hemp]
          · refine ⟨some (.dictDiff (classifiedChildren es fs
              (unionKeys (dictKeys es) (dictKeys fs)))), ?_, ?_, ?_⟩
            · rw [heval, if_neg hemp]
            · intro x hx
              cases hx
              simp only [noEmptyDict, Bool.and_eq_true]
              exact ⟨by simp [hemp], noEmptyDictChildren_iff.mpr hchildren⟩
            · intro he hn
              rw [hrefl he hn] at hemp
              simp at hemp
        | vInt _ => exact absurd hty (by simp [JVal.pyType])
        | vFloat _ => exact absurd hty (by simp [JVal.pyType])
        | vStr _ => exact absurd hty (by simp [JVal.pyType])
        | vNone => exact absurd hty (by simp [JVal.pyType])
        | vList _ => exact absurd hty (by simp [JVal.pyType])
        | vSet _ => exact absurd hty (by simp [JVal.pyType])
      | vSet xs =>
        cases d with
        | vSet ys =>
          have hnxs := canonicalB_set_iff.mp hcs
          have hnys := canonicalB_set_iff.mp hcd
          have hloop := diffSetChildren_eq xs ys (unionKeys xs ys) []
            (unionKeys_nodup hnxs hnys) (by simp [lookupBy])
          have heval : diff_json (.vSet xs) (.vSet ys) =
              .ok (if (classifiedSetChildren xs ys (unionKeys xs ys)).isEmpty then none
                  else some (.dictDiff (classifiedSetChildren xs ys (unionKeys xs ys)))) := by
            rw [diff_json.eq_def]
            simp only [JVal.pyType, ne_eq, not_true_eq_false, if_false, hloop,
              List.nil_append, bind, Except.bind]
            split <;> simp_all [pure, Except.pure]
          have hchildren : ∀ p ∈ classifiedSetChildren xs ys (unionKeys xs ys),
              noEmptyDict p.2 = true := by
            intro p hp
            obtain ⟨k, hku, hfk⟩ := List.mem_filterMap.mp hp
            simp only [classifySetElem] at hfk
            by_cases hx : containsSK xs k
            · by_cases hy : containsSK ys k
              · simp [hx, hy] at hfk
              · simp only [hx, hy, Bool.not_true, Bool.not_false, Bool.false_eq_true,
                  if_false, if_true, Option.map_some] at hfk
                cases hfk
                simp [noEmptyDict]
            · simp only [hx, Bool.not_false, if_true, Option.map_some] at hfk
              cases hfk
              simp [noEmptyDict]
          have hrefl : JVal.vSet xs = JVal.vSet ys →
              classifiedSetChildren xs ys (unionKeys xs ys) = [] := by
            intro he
            have hxy : xs = ys := by injection he
            subst hxy
            rw [unionKeys_self]
            simp only [classifiedSetChildren]
            rw [List.filterMap_eq_nil_iff]
            intro k hk
            simp [classifySetElem, containsSK_iff.mpr hk]
          by_cases hemp : (classifiedSetChildren xs ys (unionKeys xs ys)).isEmpty
          · refine ⟨none, ?_, by simp, fun _ _ => rfl⟩
            rw [heval, if_pos hemp]
          · refine ⟨some (.dictDiff (classifiedSetChildren xs ys (unionKeys xs ys))),
              ?_, ?_, ?_⟩
            · rw [heval, if_neg hemp]
            · intro x hx
              cases hx
              simp only [noEmptyDict, Bool.and_eq_true]
              exact ⟨by simp [hemp], noEmptyDictChildren_iff.mpr hchildren⟩
            · intro he _
              rw [hrefl he] at hemp
              simp at hemp
        | vInt _ => exact absurd hty (by simp [JVal.pyType])
        | vFloat _ => exact absurd hty (by simp [JVal.pyType])
        | vStr _ => exact absurd hty (by simp [JVal.pyType])
        | vNone => exact absurd hty (by simp [JVal.pyType])
        | vList _ => exact absurd hty (by simp [JVal.pyType])
        | vDict _ => exact absurd hty (by simp [JVal.pyType])
    · refine ⟨some (.typeDiff s d), ?_, ?_, ?_⟩
      · rw [diff_json.eq_def]
        simp [hty]
      · intro x hx
        cases hx
        simp [noEmptyDict]
      · intro he _
        exact absurd (he ▸ rfl) hty

/-! ## Shape lemmas for `diff_json` results -/

theorem diff_json_eq_typeDiff_of_ne {a b : JVal} (h : a.pyType ≠ b.pyType) :
    diff_json a b = .ok (some (.typeDiff a b)) := by
  rw [diff_json.eq_def]
  simp [h]

theorem diff_json_int_int (a b : Int) :
    diff_json (.vInt a) (.vInt b) =
      if a ≠ b then .ok (some (.valueDiff (.vInt a) (.vInt b))) else .ok none := by
  rw [diff_json.eq_def]
  simp [JVal.pyType]

theorem diff_json_float_float (a b : PyFloat) :
    diff_json (.vFloat a) (.vFloat b) =
      if !a.pyEq b then .ok (some (.valueDiff (.vFloat a) (.vFloat b))) else .ok none := by
  rw [diff_json.eq_def]
  simp [JVal.pyType]

theorem diff_json_str_str (a b : String) :
    diff_json (.vStr a) (.vStr b) =
      if a ≠ b then .ok (some (.valueDiff (.vStr a) (.vStr b))) else .ok none := by
  rw [diff_json.eq_def]
  simp [JVal.pyType]

theorem diff_json_none_none : diff_json .vNone .vNone = .error .notImplementedError := by
  rw [diff_json.eq_def]
  simp [JVal.pyType]

theorem diff_json_list_list (l m : List JVal) :
    diff_json (.vList l) (.vList m) = .error .notImplementedError := by
  rw [diff_json.eq_def]
  simp [JVal.pyType]

theorem diff_json_dict_shape {es fs : List (SKey × JVal)} {r : DiffRes}
    (h : diff_json (.vDict es) (.vDict fs) = .ok (some r)) :
    ∃ cs, r = .dictDiff cs := by
  rw [diff_json.eq_def] at h
  simp only [JVal.pyType, ne_eq, not_true_eq_false, if_false, bind, Except.bind] at h
  cases hc : diffDictChildren es fs (unionKeys (dictKeys es) (dictKeys fs)) [] with
  | error e => rw [hc] at h; simp at h
  | ok cs =>
    rw [hc] at h
    by_cases hemp : cs.isEmpty <;> simp [hemp, pure, Except.pure] at h
    exact ⟨cs, h.symm⟩

theorem diff_json_set_shape {xs ys : List SKey} {r : DiffRes}
    (h : diff_json (.vSet xs) (.vSet ys) = .ok (some r)) :
    ∃ cs, r = .dictDiff cs := by
  rw [diff_json.eq_def] at h
  simp only [JVal.pyType, ne_eq, not_true_eq_false, if_false, bind, Except.bind] at h
  cases hc : diffSetChildren xs ys (unionKeys xs ys) [] with
  | error e => rw [hc] at h; simp at h
  | ok cs =>
    rw [hc] at h
    by_cases hemp : cs.isEmpty <;> simp [hemp, pure, Except.pure] at h
    exact ⟨cs, h.symm⟩

/-! ## The claims about `diff_json` -/

/-- C1: `diff_json` never returns an empty mapping-diff node: on canonical
inputs, every `DictDiff` node inside a returned diff — the top-level node
and every node recorded as a child of a parent — has at least one child;
when a mapping/set comparison collects no children the result is "no diff"
(`None`). -/
theorem diff_json_no_empty_dictDiff (s d : JVal)
    (hs : canonicalB s = true) (hd : canonicalB d = true) (r : DiffRes)
    (h : diff_json s d = .ok (some r)) : noEmptyDict r = true := by
  obtain ⟨r', hr', hne, -⟩ := diff_json_master (sizeOf s + sizeOf d) s d le_rfl hs hd
  rw [h] at hr'
  cases hr'
  exact hne r rfl

/-- C2: on canonical mappings, `diff_json` classifies each key of the union
of both key sets exactly as `classifyKey` describes — `Miss DESTINATION
source[key]` for keys absent from the destination, `Miss SOURCE
destination[key]` for keys absent from the source, and the recursive diff
(recorded only when non-empty) for keys present in both — and returns the
collected children (or "no diff" when there are none). -/
theorem diff_json_dict_classifies (es fs : List (SKey × JVal))
    (hs : canonicalB (.vDict es) = true) (hd : canonicalB (.vDict fs) = true) :
    diff_json (.vDict es) (.vDict fs) =
      .ok (if (classifiedChildren es fs (unionKeys (dictKeys es) (dictKeys fs))).isEmpty
        then none
        else some (.dictDiff
          (classifiedChildren es fs (unionKeys (dictKeys es) (dictKeys fs))))) := by
  obtain ⟨hnes, hces⟩ := canonicalB_dict_iff.mp hs
  obtain ⟨hnfs, hcfs⟩ := canonicalB_dict_iff.mp hd
  have hok : ∀ k ∈ unionKeys (dictKeys es) (dictKeys fs),
      ∃ r, classifyKey es fs k = .ok r := by
    intro k hku
    cases hle : lookupBy es k with
    | none =>
      cases hlf : lookupBy fs k with
      | none =>
        rcases mem_unionKeys.mp hku with hke | hkf
        · exact absurd hke (lookupBy_eq_none_iff.mp hle)
        · exact absurd hkf (lookupBy_eq_none_iff.mp hlf)
      | some v => exact ⟨some (.miss .SOURCE v), by simp [classifyKey, hle, hlf]⟩
    | some sv =>
      cases hlf : lookupBy fs k with
      | none => exact ⟨some (.miss .DESTINATION sv), by simp [classifyKey, hle, hlf]⟩
      | some dv =>
        have hcsv := hces _ (lookupBy_mem hle)
        have hcdv := hcfs _ (lookupBy_mem hlf)
        obtain ⟨r, hr, -, -⟩ :=
          diff_json_master (sizeOf sv + sizeOf dv) sv dv le_rfl hcsv hcdv
        exact ⟨r, by simp [classifyKey, hle, hlf, hr]⟩
  have hloop := diffDictChildren_eq es fs (unionKeys (dictKeys es) (dictKeys fs)) []
    (unionKeys_nodup hnes hnfs) (by simp [lookupBy]) hok
  rw [diff_json.eq_def]
  simp only [JVal.pyType, ne_eq, not_true_eq_false, if_false, hloop,
    List.nil_append, bind, Except.bind]
  split <;> simp_all [pure, Except.pure]

/-- C5 counterexample: NaN is a canonical float (a scalar of spec §3), and
Python `!=` is irreflexive on it, so `diff_json(nan, nan)` takes the scalar
branch and returns a `ValueDiff` instead of "no diff" — reflexivity fails
as universally stated. -/
theorem diff_json_nan_not_refl :
    canonicalB (.vFloat .nan) = true ∧
    diff_json (.vFloat .nan) (.vFloat .nan) =
      .ok (some (.valueDiff (.vFloat .nan) (.vFloat .nan))) := by
  constructor
  · simp [canonicalB]
  · rw [diff_json_float_float]
    simp [PyFloat.pyEq]

/-- C5 (amended): reflexivity for every canonical value with no NaN in a
value position — for every canonical scalar, mapping or set `v` none of
whose float values (the value itself, or a dict value, recursively) is
NaN, `diff_json v v` returns "no diff". -/
theorem diff_json_refl (v : JVal) (h : canonicalB v = true)
    (hn : nanValueFree v = true) : diff_json v v = .ok none := by
  obtain ⟨r, hr, -, hnone⟩ := diff_json_master (sizeOf v + sizeOf v) v v le_rfl h h
  rw [hr, hnone rfl hn]

/-- C6: symmetry of mismatch kind — whenever `diff_json a b` is a
`TypeDiff`, `diff_json b a` is a `TypeDiff` with source and destination
swapped, and likewise for `ValueDiff`. -/
theorem diff_json_symm_mismatch (a b x y : JVal) :
    (diff_json a b = .ok (some (.typeDiff x y)) →
      diff_json b a = .ok (some (.typeDiff y x))) ∧
    (diff_json a b = .ok (some (.valueDiff x y)) →
      diff_json b a = .ok (some (.valueDiff y x))) := by
  by_cases hty : a.pyType = b.pyType
  · constructor
    · intro h
      exfalso
      cases a <;> cases b <;> try simp [JVal.pyType] at hty
      · rw [diff_json_int_int] at h
        split at h <;> simp at h
      · rw [diff_json_float_float] at h
        split at h <;> simp at h
      · rw [diff_json_str_str] at h
        split at h <;> simp at h
      · rw [diff_json_none_none] at h
        simp at h
      · rw [diff_json_list_list] at h
        simp at h
      · obtain ⟨cs, hcs⟩ := diff_json_dict_shape h
        cases hcs
      · obtain ⟨cs, hcs⟩ := diff_json_set_shape h
        cases hcs
    · intro h
      cases a <;> cases b <;> try simp [JVal.pyType] at hty
      · rename_i c e
        rw [diff_json_int_int] at h
        by_cases hce : c = e
        · simp [hce] at h
        · simp only [ne_eq, hce, not_false_eq_true, if_true, Except.ok.injEq,
            Option.some.injEq, DiffRes.valueDiff.injEq] at h
          obtain ⟨hx, hy⟩ := h
          subst hx; subst hy
          rw [diff_json_int_int]
          have hec : ¬e = c := fun he => hce he.symm
          simp [hec]
      · rename_i c e
        rw [diff_json_float_float] at h
        by_cases hce : c.pyEq e = true
        · simp [hce] at h
        · have hce' : c.pyEq e = false := Bool.eq_false_iff.mpr hce
          simp only [hce', Bool.not_false, if_true, Except.ok.injEq,
            Option.some.injEq, DiffRes.valueDiff.injEq] at h
          obtain ⟨hx, hy⟩ := h
          subst hx; subst hy
          rw [diff_json_float_float]
          have hec : e.pyEq c = false := by rw [PyFloat.pyEq_comm]; exact hce'
          simp [hec]
      · rename_i c e
        rw [diff_json_str_str] at h
        by_cases hce : c = e
        · simp [hce] at h
        · simp only [ne_eq, hce, not_false_eq_true, if_true, Except.ok.injEq,
            Option.some.injEq, DiffRes.valueDiff.injEq] at h
          obtain ⟨hx, hy⟩ := h
          subst hx; subst hy
          rw [diff_json_str_str]
          have hec : ¬e = c := fun he => hce he.symm
          simp [hec]
      · rw [diff_json_none_none] at h
        simp at h
      · rw [diff_json_list_list] at h
        simp at h
      · obtain ⟨cs, hcs⟩ := diff_json_dict_shape h
        cases hcs
      · obtain ⟨cs, hcs⟩ := diff_json_set_shape h
        cases hcs
  · have hba : b.pyType ≠ a.pyType := fun he => hty he.symm
    have hab' := diff_json_eq_typeDiff_of_ne hty
    have hba' := diff_json_eq_typeDiff_of_ne hba
    constructor
    · intro h
      rw [hab'] at h
      simp only [Except.ok.injEq, Option.some.injEq, DiffRes.typeDiff.injEq] at h
      obtain ⟨hx, hy⟩ := h
      subst hx; subst hy
      exact hba'
    · intro h
      rw [hab'] at h
      simp at h

/-- C9: on canonical inputs the assertion inside `DictDiff.add_child` never
fires: `diff_json` never results in the `AssertionError` that the
`add_child` key-uniqueness assert would raise. -/
theorem diff_json_no_assertionError (s d : JVal)
    (hs : canonicalB s = true) (hd : canonicalB d = true) :
    diff_json s d ≠ .error .assertionError := by
  obtain ⟨r, hr, -, -⟩ := diff_json_master (sizeOf s + sizeOf d) s d le_rfl hs hd
  simp [hr]

/-- C10: `diff_json` compares exact runtime types before values, so an
integer and a float always produce a `TypeDiff` — in particular `1` vs
`1.0`, which are numerically equal, still produce a `TypeDiff`. -/
theorem diff_json_int_float_typeDiff :
    (∀ (i : Int) (f : PyFloat),
      diff_json (.vInt i) (.vFloat f) = .ok (some (.typeDiff (.vInt i) (.vFloat f)))) ∧
    diff_json (.vInt 1) (.vFloat (.val 1)) =
      .ok (some (.typeDiff (.vInt 1) (.vFloat (.val 1)))) :=
  ⟨fun _ _ => diff_json_eq_typeDiff_of_ne (by simp [JVal.pyType]),
    diff_json_eq_typeDiff_of_ne (by simp [JVal.pyType])⟩

/-! ## The claims about `prepare_diff_input` -/

/-- C3 counterexample: `DiffConfig(primary_key=None)` stores the candidate
list `[None]`, which is truthy, so preparing a (non-empty) list of mappings
with a null primary key passes the assert and produces a result — the
record is keyed under `None`. -/
theorem prepare_with_null_primary_key_succeeds :
    prepare_diff_input (.vList [.vDict [(.kStr "a", .vInt 1)]])
      (some (DiffConfig.make .pkNone none none)) =
      .ok (.vDict [(.kNone, .vDict [(.kStr "a", .vInt 1)])], []) := by
  simp [prepare_diff_input, prepare_list_of_dicts, prepare_dict_entries, DiffConfig.make,
    DiffConfig.primary_key, StoredPK.truthy, computeKey, firstCandidate, pyContains,
    pySubscript, toKeyE, toKey, lookupBy, containsSK, dictKeys, ignoredIn, childConfigFor,
    DiffConfig.ignore_keys, DiffConfig.children, dictInsert, JVal.pyType,
    bind, Except.bind, pure, Except.pure, HASH_PRIMARY_KEY, List.isEmpty]

/-- C3 (amended): preparing a non-empty list of mappings fails with an
assertion error unless the supplied config is present and its stored
`primary_key` is truthy (the hash sentinel or a non-empty candidate list);
a config constructed with a null `primary_key` stores the truthy list
`[None]`, so it passes the assert and preparation succeeds instead of
failing. -/
theorem prepare_list_of_dicts_requires_truthy_config (es : List (SKey × JVal))
    (rest : List JVal) (config : Option DiffConfig)
    (h : ∀ c, config = some c → StoredPK.truthy c.primary_key = false) :
    prepare_diff_input (.vList (.vDict es :: rest)) config = .error .assertionError := by
  match config with
  | none => simp [prepare_diff_input, JVal.pyType]
  | some c =>
    have hc := h c rfl
    simp [prepare_diff_input, JVal.pyType, hc]

theorem prepare_list_of_dicts_requires_truthy_config_witness :
    prepare_diff_input (.vList [.vDict [(.kStr "a", .vInt 1)]]) none =
      .error .assertionError :=
  prepare_list_of_dicts_requires_truthy_config [(.kStr "a", .vInt 1)] [] none
    (fun _ hc => Option.noConfusion hc)

/-- C4: during preparation of a list of mappings, when a prepared element
computes a key that is already present in the result mapping, the element
is dropped (the result mapping is unchanged), and a duplicate diagnostic
identifying the dropped element and the element already kept is emitted;
processing continues with the rest of the list. -/
theorem prepare_duplicate_dropped (e : JVal) (rest : List JVal) (config : DiffConfig)
    (result : List (SKey × JVal)) (logs : List DupLog) (converted : JVal)
    (lgs : List DupLog) (keyv : JVal) (key : SKey) (kept : JVal)
    (hconv : prepare_diff_input e (some config) = .ok (converted, lgs))
    (hkeyv : computeKey config.primary_key converted = .ok keyv)
    (hkey : toKeyE keyv = .ok key)
    (hdup : lookupBy result key = some kept) :
    prepare_list_of_dicts (e :: rest) config result logs =
      prepare_list_of_dicts rest config result (logs ++ lgs ++ [⟨converted, kept⟩]) := by
  rw [prepare_list_of_dicts.eq_def]
  simp only [hconv, bind, Except.bind, hkeyv, hkey, hdup]

theorem prepare_duplicate_dropped_witness :
    prepare_list_of_dicts [.vDict [(.kStr "id", .vInt 1), (.kStr "v", .vStr "z")]]
        (DiffConfig.make (.pkSingle (.kStr "id")) none none)
        [(.kInt 1, .vDict [(.kStr "id", .vInt 1), (.kStr "v", .vStr "x")])] [] =
      prepare_list_of_dicts []
        (DiffConfig.make (.pkSingle (.kStr "id")) none none)
        [(.kInt 1, .vDict [(.kStr "id", .vInt 1), (.kStr "v", .vStr "x")])]
        ([] ++ [] ++
          [⟨.vDict [(.kStr "id", .vInt 1), (.kStr "v", .vStr "z")],
            .vDict [(.kStr "id", .vInt 1), (.kStr "v", .vStr "x")]⟩]) :=
  prepare_duplicate_dropped _ [] _ _ [] _ [] (.vInt 1) (.kInt 1) _
    (by simp [prepare_diff_input, prepare_dict_entries, childConfigFor, ignoredIn,
      DiffConfig.make, DiffConfig.ignore_keys, DiffConfig.children, dictInsert,
      bind, Except.bind, JVal.pyType])
    (by simp [computeKey, DiffConfig.make, DiffConfig.primary_key, HASH_PRIMARY_KEY,
      firstCandidate, pyContains, pySubscript, dictKeys, containsSK, lookupBy,
      bind, Except.bind])
    (by simp [toKeyE, toKey])
    (by simp [lookupBy])

/-- C7: when the configured `primary_key` is a candidate list (not the hash
sentinel), the key of a prepared record is the value of the first candidate
field, in candidate order, that exists in the prepared record; earlier
candidates absent from the record are skipped. -/
theorem computeKey_first_candidate (ks1 : List SKey) :
    ∀ (k : SKey) (ks2 : List SKey) (es : List (SKey × JVal)) (v : JVal),
    (∀ c ∈ ks1, lookupBy es c = none) →
    lookupBy es k = some v →
    computeKey (.candidates (ks1 ++ k :: ks2)) (.vDict es) = .ok v := by
  induction ks1 with
  | nil =>
    intro k ks2 es v _ hv
    have hk : containsSK (dictKeys es) k = true :=
      containsSK_iff.mpr (List.mem_map_of_mem Prod.fst (lookupBy_mem hv))
    simp [computeKey, firstCandidate, pyContains, hk, pySubscript, hv,
      bind, Except.bind]
  | cons c cs ih =>
    intro k ks2 es v habsent hv
    have hc : lookupBy es c = none := habsent c (List.mem_cons_self _ _)
    have hcc : containsSK (dictKeys es) c = false :=
      Bool.eq_false_iff.mpr
        (fun hx => lookupBy_eq_none_iff.mp hc (containsSK_iff.mp hx))
    have := ih k ks2 es v (fun x hx => habsent x (List.mem_cons_of_mem _ hx)) hv
    simp only [computeKey, firstCandidate] at this ⊢
    simpa [pyContains, hcc, bind, Except.bind] using this

theorem computeKey_first_candidate_witness :
    computeKey (.candidates ([.kStr "nope"] ++ .kStr "id" :: [.kStr "later"]))
        (.vDict [(.kStr "id", .vInt 7)]) = .ok (.vInt 7) :=
  computeKey_first_candidate [.kStr "nope"] (.kStr "id") [.kStr "later"]
    [(.kStr "id", .vInt 7)] (.vInt 7)
    (by intro c hc
        simp only [List.mem_singleton] at hc
        subst hc
        simp [lookupBy])
    (by simp [lookupBy])

/-- C8 counterexample: `prepare_diff_input([1, 2], config=None)` is a list
of scalars, not of mappings, so it does not fail — it returns the set
`{1, 2}` (and no diagnostics). -/
theorem prepare_int_list_none_config_succeeds :
    prepare_diff_input (.vList [.vInt 1, .vInt 2]) none =
      .ok (.vSet [.kInt 1, .kInt 2], []) := by
  simp [prepare_diff_input, listToKeys, toKeyE, toKey, dedupKeys, containsSK,
    JVal.pyType, bind, Except.bind]

/-- C8 (amended): fatal-type propagation holds for an actual list of
mappings: preparing `[{"a": 1}, {"b": 2}]` with `config=None` fails
immediately with an assertion error and produces no partial result (the
spec example `[1, 2]` is a list of scalars and returns a set instead). -/
theorem prepare_dict_list_none_config_fails :
    prepare_diff_input
      (.vList [.vDict [(.kStr "a", .vInt 1)], .vDict [(.kStr "b", .vInt 2)]]) none =
      .error .assertionError := by
  simp [prepare_diff_input, JVal.pyType]

/-! ## Witnesses for the `diff_json` claims -/

theorem diff_json_no_empty_dictDiff_witness :
    noEmptyDict (.dictDiff [(.kStr "a", .miss .DESTINATION (.vInt 1))]) = true :=
  diff_json_no_empty_dictDiff (.vDict [(.kStr "a", .vInt 1)]) (.vDict [])
    (by simp [canonicalB, canonicalEntries, dictKeys])
    (by simp [canonicalB, canonicalEntries, dictKeys])
    (.dictDiff [(.kStr "a", .miss .DESTINATION (.vInt 1))])
    (by simp [diff_json, diffDictChildren, unionKeys, dictKeys, containsSK, lookupBy,
      add_child, JVal.pyType, bind, Except.bind, pure, Except.pure, List.isEmpty])

theorem diff_json_dict_classifies_witness :
    diff_json (.vDict [(.kStr "a", .vInt 1)]) (.vDict []) =
      .ok (if (classifiedChildren [(.kStr "a", .vInt 1)] []
          (unionKeys (dictKeys [(.kStr "a", .vInt 1)]) (dictKeys []))).isEmpty
        then none
        else some (.dictDiff (classifiedChildren [(.kStr "a", .vInt 1)] []
          (unionKeys (dictKeys [(.kStr "a", .vInt 1)]) (dictKeys []))))) :=
  diff_json_dict_classifies [(.kStr "a", .vInt 1)] []
    (by simp [canonicalB, canonicalEntries, dictKeys])
    (by simp [canonicalB, canonicalEntries, dictKeys])

theorem diff_json_refl_witness :
    diff_json
        (.vDict [(.kStr "a", .vInt 1), (.kStr "b", .vSet [.kInt 1, .kInt 2]),
          (.kStr "c", .vFloat (.val 1))])
        (.vDict [(.kStr "a", .vInt 1), (.kStr "b", .vSet [.kInt 1, .kInt 2]),
          (.kStr "c", .vFloat (.val 1))]) =
      .ok none :=
  diff_json_refl
    (.vDict [(.kStr "a", .vInt 1), (.kStr "b", .vSet [.kInt 1, .kInt 2]),
      (.kStr "c", .vFloat (.val 1))])
    (by simp [canonicalB, canonicalEntries, dictKeys])
    (by simp [nanValueFree, nanValueFreeEntries])

theorem diff_json_symm_mismatch_witness :
    diff_json (.vInt 2) (.vInt 1) = .ok (some (.valueDiff (.vInt 2) (.vInt 1))) :=
  (diff_json_symm_mismatch (.vInt 1) (.vInt 2) (.vInt 1) (.vInt 2)).2
    (by simp [diff_json, JVal.pyType])

theorem diff_json_no_assertionError_witness :
    diff_json (.vSet [.kInt 1, .kInt 2]) (.vSet [.kInt 2, .kInt 3]) ≠
      .error .assertionError :=
  diff_json_no_assertionError (.vSet [.kInt 1, .kInt 2]) (.vSet [.kInt 2, .kInt 3])
    (by simp [canonicalB]) (by simp [canonicalB])

end JsonDiff
